import Mathlib

/-!
Verification of the `dynamodb_data` codec (src/src/lib.rs): a bidirectional
codec between `serde_json::Value` (the Generic Value model) and
`rusoto_dynamodb::AttributeValue` (the Attribute Value model).

Modelling conventions (shallow embedding):
* `serde_json::Value` numbers are modelled as integers (`Int`); the
  numeric-text conversion used by `format!` on a number and by the JSON
  parser is modelled by `numFormat` / the integer branch of `parseVal`.
* Byte sequences (`Bytes` / `Vec<u8>`) are modelled as `List Nat`.
* `HashMap<String, _>` and `serde_json::Map<String, _>` are modelled as
  association lists; `from_iter` / `insert` are modelled with
  last-write-wins insertion (`insertAList`, `mapFromIter`), and iteration
  order is modelled as insertion order (map equality in Rust is key-value
  equality, which this deterministic refinement preserves).
* A Rust `panic!` / `.expect(..)` failure is modelled as `Option.none`.
* `serde_json::from_str::<Value>` is modelled by `jsonFromStr`, a JSON
  document parser (numbers restricted to integer literals, string escape
  sequences not modelled; neither is exercised by the codec's encoder).
* `String::from_utf8` is modelled by `utf8Decode`.
-/

namespace DDB

/-- Generic Value: `serde_json::Value`, the six-variant JSON model.
Numbers are modelled as integers. -/
inductive Json where
  | null
  | bool (b : Bool)
  | num (n : Int)
  | str (s : String)
  | arr (elems : List Json)
  | obj (entries : List (String × Json))

/-- Attribute Value: `rusoto_dynamodb::AttributeValue`, ten optional slots
`b`, `bool`, `bs`, `l`, `m`, `n`, `ns`, `null`, `s`, `ss` in struct order. -/
inductive AttributeValue where
  | mk (b : Option (List Nat)) (bool : Option Bool) (bs : Option (List (List Nat)))
       (l : Option (List AttributeValue)) (m : Option (List (String × AttributeValue)))
       (n : Option String) (ns : Option (List String)) (null : Option Bool)
       (s : Option String) (ss : Option (List String))

/-- The `b` (Binary) slot. -/
def AttributeValue.b : AttributeValue → Option (List Nat)
  | ⟨x, _, _, _, _, _, _, _, _, _⟩ => x

/-- The `bool` slot. -/
def AttributeValue.bool : AttributeValue → Option Bool
  | ⟨_, x, _, _, _, _, _, _, _, _⟩ => x

/-- The `bs` (BinarySet) slot. -/
def AttributeValue.bs : AttributeValue → Option (List (List Nat))
  | ⟨_, _, x, _, _, _, _, _, _, _⟩ => x

/-- The `l` (List) slot. -/
def AttributeValue.l : AttributeValue → Option (List AttributeValue)
  | ⟨_, _, _, x, _, _, _, _, _, _⟩ => x

/-- The `m` (Map) slot. -/
def AttributeValue.m : AttributeValue → Option (List (String × AttributeValue))
  | ⟨_, _, _, _, x, _, _, _, _, _⟩ => x

/-- The `n` (Number) slot. -/
def AttributeValue.n : AttributeValue → Option String
  | ⟨_, _, _, _, _, x, _, _, _, _⟩ => x

/-- The `ns` (NumberSet) slot. -/
def AttributeValue.ns : AttributeValue → Option (List String)
  | ⟨_, _, _, _, _, _, x, _, _, _⟩ => x

/-- The `null` (Null marker) slot. -/
def AttributeValue.null : AttributeValue → Option Bool
  | ⟨_, _, _, _, _, _, _, x, _, _⟩ => x

/-- The `s` (String) slot. -/
def AttributeValue.s : AttributeValue → Option String
  | ⟨_, _, _, _, _, _, _, _, x, _⟩ => x

/-- The `ss` (StringSet) slot. -/
def AttributeValue.ss : AttributeValue → Option (List String)
  | ⟨_, _, _, _, _, _, _, _, _, x⟩ => x

/-- `AttributeValue::default()`: all slots absent. -/
def AttributeValue.default : AttributeValue :=
  ⟨none, none, none, none, none, none, none, none, none, none⟩

/-- Does the association list contain the key? (`HashMap::contains_key`). -/
def containsKey (k : String) : List (String × α) → Bool
  | [] => false
  | (k', _) :: rest => k' == k || containsKey k rest

/-- `HashMap::insert` on the association-list model: replace in place when
the key is present, append otherwise (last-write-wins). -/
def insertAList (m : List (String × α)) (k : String) (v : α) : List (String × α) :=
  match m with
  | [] => [(k, v)]
  | (k', v') :: rest => if k' == k then (k, v) :: rest else (k', v') :: insertAList rest k v

/-- `HashMap::from_iter` / `serde_json::Map::from_iter`: fold the pairs into
an empty map with last-write-wins insertion. -/
def mapFromIter (l : List (String × α)) : List (String × α) :=
  l.foldl (fun acc kv => insertAList acc kv.1 kv.2) []

/-- Map lookup on the association-list model (`HashMap::get`). -/
def alookup (k : String) : List (String × α) → Option α
  | [] => none
  | (k', v) :: rest => if k' == k then some v else alookup k rest

/-- Emit the decimal digits of `n` (most significant first) onto `acc`;
`fuel` bounds the recursion depth. -/
def toDigitsAux : Nat → Nat → List Char → List Char
  | 0, _, acc => acc
  | fuel + 1, n, acc =>
    if n < 10 then Nat.digitChar (n % 10) :: acc
    else toDigitsAux fuel (n / 10) (Nat.digitChar (n % 10) :: acc)

/-- Decimal representation of a natural number. -/
def natRepr (n : Nat) : String :=
  ⟨toDigitsAux (n + 1) n []⟩

/-- `format!` on a (model) number: signed decimal text. -/
def numFormat (i : Int) : String :=
  if i < 0 then "-" ++ natRepr i.natAbs else natRepr i.natAbs

/-- JSON insignificant whitespace. -/
def isWsChar (c : Char) : Bool :=
  c = ' ' || c = '\t' || c = '\n' || c = '\r'

/-- Drop leading JSON whitespace. -/
def skipWs : List Char → List Char
  | [] => []
  | c :: cs => if isWsChar c then skipWs cs else c :: cs

/-- Split off the longest prefix of decimal digits. -/
def spanDigits : List Char → List Char × List Char
  | [] => ([], [])
  | c :: cs =>
    if c.isDigit then
      let p := spanDigits cs
      (c :: p.1, p.2)
    else ([], c :: cs)

/-- Numeric value of a most-significant-first digit string. -/
def digitsToNat (ds : List Char) : Nat :=
  ds.foldl (fun a c => 10 * a + (c.toNat - 48)) 0

/-- Parse the digits of a JSON number (after the optional sign): `0` alone,
or a nonzero leading digit followed by further digits. -/
def parseNatPart : List Char → Option (Nat × List Char)
  | [] => none
  | c :: rest =>
    if c = '0' then some (0, rest)
    else if c.isDigit then
      let p := spanDigits rest
      some (digitsToNat (c :: p.1), p.2)
    else none

/-- Parse a JSON string body up to the closing quote (escape sequences and
control characters are rejected; they are never produced by this codec). -/
def parseStrBody : List Char → Option (String × List Char)
  | [] => none
  | c :: rest =>
    if c = '"' then some ("", rest)
    else if c = '\\' then none
    else if c.toNat < 32 then none
    else (parseStrBody rest).map (fun p => (⟨c :: p.1.data⟩, p.2))

mutual

/-- Parse one JSON value (fuel-indexed recursive-descent, modelling
`serde_json::from_str::<Value>`). -/
def parseVal : Nat → List Char → Option (Json × List Char)
  | 0, _ => none
  | fuel + 1, cs =>
    match cs with
    | [] => none
    | c :: rest =>
      if c = 't' then
        match rest with
        | 'r' :: 'u' :: 'e' :: r => some (.bool true, r)
        | _ => none
      else if c = 'f' then
        match rest with
        | 'a' :: 'l' :: 's' :: 'e' :: r => some (.bool false, r)
        | _ => none
      else if c = 'n' then
        match rest with
        | 'u' :: 'l' :: 'l' :: r => some (.null, r)
        | _ => none
      else if c = '"' then
        (parseStrBody rest).map (fun p => (.str p.1, p.2))
      else if c = '[' then
        match skipWs rest with
        | ']' :: r => some (.arr [], r)
        | cs' => (parseArrItems fuel cs').map (fun p => (.arr p.1, p.2))
      else if c = '\x7b' then
        match skipWs rest with
        | '\x7d' :: r => some (.obj [], r)
        | cs' => (parseObjItems fuel cs').map (fun p => (.obj (mapFromIter p.1), p.2))
      else if c = '-' then
        (parseNatPart rest).map (fun p => (.num (-(p.1 : Int)), p.2))
      else if c.isDigit then
        (parseNatPart (c :: rest)).map (fun p => (.num (p.1 : Int), p.2))
      else none

/-- Parse the comma-separated items of a non-empty JSON array. -/
def parseArrItems : Nat → List Char → Option (List Json × List Char)
  | 0, _ => none
  | fuel + 1, cs => do
    let p ← parseVal fuel cs
    match skipWs p.2 with
    | ',' :: r => (parseArrItems fuel (skipWs r)).map (fun q => (p.1 :: q.1, q.2))
    | ']' :: r => some ([p.1], r)
    | _ => none

/-- Parse the comma-separated members of a non-empty JSON object. -/
def parseObjItems : Nat → List Char → Option (List (String × Json) × List Char)
  | 0, _ => none
  | fuel + 1, cs =>
    match cs with
    | '"' :: rest => do
      let pk ← parseStrBody rest
      match skipWs pk.2 with
      | ':' :: r =>
        match parseVal fuel (skipWs r) with
        | some pv =>
          match skipWs pv.2 with
          | ',' :: r2 => (parseObjItems fuel (skipWs r2)).map (fun q => ((pk.1, pv.1) :: q.1, q.2))
          | '\x7d' :: r2 => some ([(pk.1, pv.1)], r2)
          | _ => none
        | none => none
      | _ => none
    | _ => none

end

/-- `serde_json::from_str::<Value>`: parse a complete JSON document
(surrounding whitespace allowed, trailing content rejected). -/
def jsonFromStr (s : String) : Option Json :=
  match parseVal (s.data.length + 1) (skipWs s.data) with
  | some p => if skipWs p.2 = [] then some p.1 else none
  | none => none

/-- Is the byte a UTF-8 continuation byte? -/
def utf8Cont (b : Nat) : Bool :=
  128 ≤ b && b < 192

/-- Decode a byte sequence as UTF-8 characters (rejecting overlong forms,
surrogates and out-of-range code points, as `String::from_utf8` does). -/
def utf8Chars : List Nat → Option (List Char)
  | [] => some []
  | b1 :: rest =>
    if b1 < 128 then (utf8Chars rest).map (fun cs => Char.ofNat b1 :: cs)
    else if b1 < 194 then none
    else if b1 < 224 then
      match rest with
      | b2 :: rest2 =>
        if utf8Cont b2 then
          (utf8Chars rest2).map (fun cs => Char.ofNat ((b1 - 192) * 64 + (b2 - 128)) :: cs)
        else none
      | [] => none
    else if b1 < 240 then
      match rest with
      | b2 :: b3 :: rest3 =>
        let cp := (b1 - 224) * 4096 + (b2 - 128) * 64 + (b3 - 128)
        if utf8Cont b2 && utf8Cont b3 && decide (2048 ≤ cp) &&
            !(decide (55296 ≤ cp) && decide (cp < 57344)) then
          (utf8Chars rest3).map (fun cs => Char.ofNat cp :: cs)
        else none
      | _ => none
    else if b1 < 245 then
      match rest with
      | b2 :: b3 :: b4 :: rest4 =>
        let cp := (b1 - 240) * 262144 + (b2 - 128) * 4096 + (b3 - 128) * 64 + (b4 - 128)
        if utf8Cont b2 && utf8Cont b3 && utf8Cont b4 && decide (65536 ≤ cp) &&
            decide (cp < 1114112) then
          (utf8Chars rest4).map (fun cs => Char.ofNat cp :: cs)
        else none
      | _ => none
    else none

/-- `String::from_utf8`: decode bytes to a string, `none` on invalid UTF-8. -/
def utf8Decode (bytes : List Nat) : Option String :=
  (utf8Chars bytes).map (fun cs => ⟨cs⟩)

mutual

/-- `json_to_attribute_value` (src/src/lib.rs:204-255): the Encoder.
Match arms in source order: Array, Object, String (empty-string sentinel),
Number, Bool, Null. -/
def json_to_attribute_value : Json → AttributeValue
  | .arr xs =>
    ⟨none, none, none, some (encodeList xs), none, none, none, none, none, none⟩
  | .obj kvs =>
    ⟨none, none, none, none, some (mapFromIter (encodeEntries kvs)), none, none, none, none, none⟩
  | .str x =>
    if x = "" then ⟨none, none, none, none, none, none, none, none, some "\x00", none⟩
    else ⟨none, none, none, none, none, none, none, none, some x, none⟩
  | .num x => ⟨none, none, none, none, none, some (numFormat x), none, none, none, none⟩
  | .bool x => ⟨none, some x, none, none, none, none, none, none, none, none⟩
  | .null => ⟨none, none, none, none, none, none, none, some true, none, none⟩

/-- Elementwise encoding of an Array's elements (the `map` in the
`Value::Array` arm). -/
def encodeList : List Json → List AttributeValue
  | [] => []
  | x :: xs => json_to_attribute_value x :: encodeList xs

/-- Entrywise encoding of an Object's entries (the `map` in the
`Value::Object` arm). -/
def encodeEntries : List (String × Json) → List (String × AttributeValue)
  | [] => []
  | (k, v) :: rest => (k, json_to_attribute_value v) :: encodeEntries rest

end

mutual

/-- `attribute_value_to_json` (src/src/lib.rs:257-331): the Decoder.
The `if ... is_some()` chain in source order: `b`, `bool`, `bs`, `l`, `m`,
`n`, `ns`, `s`, `null`, `ss`, final `panic!`.  Panics are modelled as
`none`.  Note the source's `ss` arm reads `value.ns` (line 322). -/
def attribute_value_to_json : AttributeValue → Option Json
  | ⟨b, bo, bs, l, m, n, ns, nu, s, ss⟩ =>
    match b with
    | some bytes => (utf8Decode bytes).map .str
    | none =>
      match bo with
      | some bv => some (.bool bv)
      | none =>
        match bs with
        | some xss => (xss.mapM utf8Decode).map (fun ts => .arr (ts.map .str))
        | none =>
          match l with
          | some xs => (decodeList xs).map .arr
          | none =>
            match m with
            | some kvs => (decodeEntries kvs).map (fun es => .obj (mapFromIter es))
            | none =>
              match n with
              | some t => jsonFromStr t
              | none =>
                match ns with
                | some xs => (xs.mapM jsonFromStr).map .arr
                | none =>
                  match s with
                  | some t => if t = "\x00" then some (.str "") else some (.str t)
                  | none =>
                    match nu with
                    | some _ => some .null
                    | none =>
                      match ss with
                      | some _ =>
                        match ns with
                        | some xs => some (.arr (xs.map .str))
                        | none => none
                      | none => none

/-- Elementwise decoding of a List slot (the `map` in the `l` arm). -/
def decodeList : List AttributeValue → Option (List Json)
  | [] => some []
  | x :: xs =>
    match attribute_value_to_json x with
    | some v =>
      match decodeList xs with
      | some vs => some (v :: vs)
      | none => none
    | none => none

/-- Entrywise decoding of a Map slot (the `map` in the `m` arm). -/
def decodeEntries : List (String × AttributeValue) → Option (List (String × Json))
  | [] => some []
  | (k, x) :: rest =>
    match attribute_value_to_json x with
    | some v =>
      match decodeEntries rest with
      | some vs => some ((k, v) :: vs)
      | none => none
    | none => none

end

/-- `json_to_attribute_value_hashmap` (src/src/lib.rs:338-340): encode, then
`.m.expect(..)` — a panic (`none`) when the Map slot is absent.  The
`to_fields` entry point is this function composed with the external
serde serialization step. -/
def json_to_attribute_value_hashmap (value : Json) : Option (List (String × AttributeValue)) :=
  (json_to_attribute_value value).m

/-- The `fields!` macro (src/src/lib.rs:150-169): sequentially insert each
pair's encoded value into an initially empty `HashMap`. -/
def fieldsBuilder (pairs : List (String × Json)) : List (String × AttributeValue) :=
  pairs.foldl (fun m kv => insertAList m kv.1 (json_to_attribute_value kv.2)) []

/-- The value attached to the last occurrence of a key in an ordered pair
list (used to state last-write-wins). -/
def lastAssoc (k : String) : List (String × α) → Option α
  | [] => none
  | (k', v) :: rest =>
    match lastAssoc k rest with
    | some w => some w
    | none => if k' == k then some v else none

/-- Is the Generic Value an Object? -/
def Json.isObj : Json → Bool
  | .obj _ => true
  | _ => false

/-- Pairwise-distinct keys of an association list. -/
def noDupKeys : List (String × α) → Bool
  | [] => true
  | (k, _) :: rest => !containsKey k rest && noDupKeys rest

mutual

/-- Well-formed Generic Value: every object has pairwise-distinct keys
(the Generic Value data model: "keys unique"). -/
def wfJson : Json → Bool
  | .null => true
  | .bool _ => true
  | .num _ => true
  | .str _ => true
  | .arr xs => wfList xs
  | .obj kvs => noDupKeys kvs && wfEntries kvs

/-- All list elements well-formed. -/
def wfList : List Json → Bool
  | [] => true
  | x :: xs => wfJson x && wfList xs

/-- All entry values well-formed. -/
def wfEntries : List (String × Json) → Bool
  | [] => true
  | (_, v) :: rest => wfJson v && wfEntries rest

end

mutual

/-- No string value (at any depth) equals the one-character NUL string. -/
def noNulJson : Json → Bool
  | .null => true
  | .bool _ => true
  | .num _ => true
  | .str s => !(s == "\x00")
  | .arr xs => noNulList xs
  | .obj kvs => noNulEntries kvs

/-- No NUL-string in any element. -/
def noNulList : List Json → Bool
  | [] => true
  | x :: xs => noNulJson x && noNulList xs

/-- No NUL-string in any entry value. -/
def noNulEntries : List (String × Json) → Bool
  | [] => true
  | (_, v) :: rest => noNulJson v && noNulEntries rest

end

/-- One-or-zero count of an optional slot. -/
def optCount : Option α → Nat
  | none => 0
  | some _ => 1

/-- Number of populated slots of an Attribute Value. -/
def slotCount : AttributeValue → Nat
  | ⟨b, bo, bs, l, m, n, ns, nu, s, ss⟩ =>
    optCount b + optCount bo + optCount bs + optCount l + optCount m +
      optCount n + optCount ns + optCount nu + optCount s + optCount ss

mutual

/-- Exactly one populated slot, recursively through the List and Map slots. -/
def oneSlot : AttributeValue → Bool
  | ⟨b, bo, bs, l, m, n, ns, nu, s, ss⟩ =>
    (optCount b + optCount bo + optCount bs + optCount l + optCount m +
      optCount n + optCount ns + optCount nu + optCount s + optCount ss == 1) &&
    (match l with
     | some xs => oneSlotList xs
     | none => true) &&
    (match m with
     | some kvs => oneSlotEntries kvs
     | none => true)

/-- `oneSlot` for every element. -/
def oneSlotList : List AttributeValue → Bool
  | [] => true
  | x :: xs => oneSlot x && oneSlotList xs

/-- `oneSlot` for every entry value. -/
def oneSlotEntries : List (String × AttributeValue) → Bool
  | [] => true
  | (_, v) :: rest => oneSlot v && oneSlotEntries rest

end

/-- Induction principle for the nested inductive `Json`: to prove `P` for
every value it suffices to prove it for each constructor, given it for the
members of array elements and object entry values. -/
def Json.induct (P : Json → Prop)
    (h0 : P .null) (h1 : ∀ b, P (.bool b)) (h2 : ∀ n, P (.num n)) (h3 : ∀ s, P (.str s))
    (h4 : ∀ xs, (∀ x ∈ xs, P x) → P (.arr xs))
    (h5 : ∀ kvs, (∀ kv ∈ kvs, P kv.2) → P (.obj kvs)) : ∀ v, P v
  | .null => h0
  | .bool b => h1 b
  | .num n => h2 n
  | .str s => h3 s
  | .arr xs => h4 xs (fun x hx => Json.induct P h0 h1 h2 h3 h4 h5 x)
  | .obj kvs => h5 kvs (fun kv hkv => Json.induct P h0 h1 h2 h3 h4 h5 kv.2)
termination_by v => sizeOf v
decreasing_by
  · have := List.sizeOf_lt_of_mem hx
    simp only [Json.arr.sizeOf_spec]
    omega
  · have hm := List.sizeOf_lt_of_mem hkv
    have hp : sizeOf kv.2 < sizeOf kv := by
      obtain ⟨a, b⟩ := kv
      simp
    simp only [Json.obj.sizeOf_spec]
    omega

theorem digitChar_toNat {d : Nat} (hd : d < 10) : (Nat.digitChar d).toNat = d + 48 := by
  interval_cases d <;> rfl

theorem digitChar_isDigit {d : Nat} (hd : d < 10) : (Nat.digitChar d).isDigit = true := by
  interval_cases d <;> rfl

theorem digitChar_ne_zero {d : Nat} (hd : d < 10) (hd0 : d ≠ 0) : Nat.digitChar d ≠ '0' := by
  interval_cases d <;> simp_all <;> decide

theorem digit_not_special {c : Char} (h : c.isDigit = true) :
    c ≠ 't' ∧ c ≠ 'f' ∧ c ≠ 'n' ∧ c ≠ '"' ∧ c ≠ '[' ∧ c ≠ '\x7b' ∧ c ≠ '-' ∧ isWsChar c = false := by
  have h1 : c ≠ ' ' := by rintro rfl; exact absurd h (by decide)
  have h2 : c ≠ '\t' := by rintro rfl; exact absurd h (by decide)
  have h3 : c ≠ '\n' := by rintro rfl; exact absurd h (by decide)
  have h4 : c ≠ '\r' := by rintro rfl; exact absurd h (by decide)
  refine ⟨?_, ?_, ?_, ?_, ?_, ?_, ?_, ?_⟩
  · rintro rfl; exact absurd h (by decide)
  · rintro rfl; exact absurd h (by decide)
  · rintro rfl; exact absurd h (by decide)
  · rintro rfl; exact absurd h (by decide)
  · rintro rfl; exact absurd h (by decide)
  · rintro rfl; exact absurd h (by decide)
  · rintro rfl; exact absurd h (by decide)
  · simp [isWsChar, h1, h2, h3, h4]

theorem skipWs_of_not_ws {c : Char} (h : isWsChar c = false) (cs : List Char) :
    skipWs (c :: cs) = c :: cs := by
  simp [skipWs, h]

theorem spanDigits_all {cs : List Char} (h : ∀ c ∈ cs, c.isDigit = true) :
    spanDigits cs = (cs, []) := by
  induction cs with
  | nil => rfl
  | cons c rest ih =>
    have hc : c.isDigit = true := h c (List.mem_cons_self c rest)
    have := ih (fun x hx => h x (List.mem_cons_of_mem c hx))
    simp [spanDigits, hc, this]

theorem foldl_digitChars (L : List Nat) (hL : ∀ d ∈ L, d < 10) : ∀ acc : Nat,
    List.foldl (fun a c => 10 * a + (c.toNat - 48)) acc ((L.map Nat.digitChar).reverse)
      = acc * 10 ^ L.length + Nat.ofDigits 10 L := by
  induction L with
  | nil => intro acc; simp [Nat.ofDigits_nil]
  | cons d L' ih =>
    intro acc
    have hd : d < 10 := hL d (List.mem_cons_self d L')
    have hL' : ∀ x ∈ L', x < 10 := fun x hx => hL x (List.mem_cons_of_mem d hx)
    have : ((d :: L').map Nat.digitChar).reverse
        = (L'.map Nat.digitChar).reverse ++ [Nat.digitChar d] := by
      simp
    rw [this, List.foldl_append, ih hL' acc]
    simp only [List.foldl_cons, List.foldl_nil, Nat.ofDigits_cons, digitChar_toNat hd,
      Nat.add_sub_cancel, List.length_cons]
    ring

theorem digitsToNat_digits {n : Nat} :
    digitsToNat (((Nat.digits 10 n).map Nat.digitChar).reverse) = n := by
  have hlt : ∀ d ∈ Nat.digits 10 n, d < 10 :=
    fun d hd => Nat.digits_lt_base (by norm_num) hd
  have := foldl_digitChars (Nat.digits 10 n) hlt 0
  simpa [digitsToNat, Nat.ofDigits_digits] using this

theorem toDigitsAux_eq_digits :
    ∀ (fuel n : Nat) (acc : List Char), n < fuel → n ≠ 0 →
      toDigitsAux fuel n acc = ((Nat.digits 10 n).map Nat.digitChar).reverse ++ acc := by
  intro fuel
  induction fuel with
  | zero => intro n acc h; omega
  | succ fuel ih =>
    intro n acc hlt hn0
    by_cases h10 : n < 10
    · have : Nat.digits 10 n = [n] := Nat.digits_of_lt 10 n hn0 h10
      simp [toDigitsAux, h10, this, Nat.mod_eq_of_lt h10]
    · have hdiv0 : n / 10 ≠ 0 := by omega
      have hdivlt : n / 10 < fuel := by omega
      have hdig : Nat.digits 10 n = (n % 10) :: Nat.digits 10 (n / 10) :=
        Nat.digits_def' (by norm_num) (by omega)
      rw [toDigitsAux, if_neg h10, ih (n / 10) (Nat.digitChar (n % 10) :: acc) hdivlt hdiv0,
        hdig]
      simp

theorem natRepr_data {n : Nat} (hn : n ≠ 0) :
    (natRepr n).data = ((Nat.digits 10 n).map Nat.digitChar).reverse := by
  show toDigitsAux (n + 1) n [] = _
  rw [toDigitsAux_eq_digits (n + 1) n [] (by omega) hn]
  simp

theorem digitsChars_shape {n : Nat} (hn : n ≠ 0) :
    ∃ c rest, ((Nat.digits 10 n).map Nat.digitChar).reverse = c :: rest
      ∧ c.isDigit = true ∧ c ≠ '0' ∧ (∀ x ∈ rest, x.isDigit = true) := by
  have hne : Nat.digits 10 n ≠ [] := Nat.digits_ne_nil_iff_ne_zero.mpr hn
  have hlast := List.dropLast_append_getLast hne
  set d0 := (Nat.digits 10 n).getLast hne with hd0def
  have hd0mem : d0 ∈ Nat.digits 10 n := List.getLast_mem hne
  have hd0lt : d0 < 10 := Nat.digits_lt_base (by norm_num) hd0mem
  have hd0ne : d0 ≠ 0 := Nat.getLast_digit_ne_zero 10 hn
  refine ⟨Nat.digitChar d0, ((Nat.digits 10 n).dropLast.map Nat.digitChar).reverse, ?_, ?_, ?_, ?_⟩
  · conv_lhs => rw [← hlast]
    simp
  · exact digitChar_isDigit hd0lt
  · exact digitChar_ne_zero hd0lt hd0ne
  · intro x hx
    simp only [List.mem_reverse, List.mem_map] at hx
    obtain ⟨d, hdmem, rfl⟩ := hx
    have : d ∈ Nat.digits 10 n := List.dropLast_subset _ hdmem
    exact digitChar_isDigit (Nat.digits_lt_base (by norm_num) this)

theorem parseNatPart_digits {n : Nat} (hn : n ≠ 0) :
    parseNatPart (((Nat.digits 10 n).map Nat.digitChar).reverse) = some (n, []) := by
  obtain ⟨c, rest, heq, hdig, hne0, hrest⟩ := digitsChars_shape hn
  have hval : digitsToNat (c :: rest) = n := by
    rw [← heq]; exact digitsToNat_digits
  rw [heq]
  simp only [parseNatPart]
  rw [if_neg hne0, if_pos hdig, spanDigits_all hrest]
  simp [hval]

theorem parseVal_digit {c : Char} {rest : List Char} {fuel : Nat} (h : c.isDigit = true) :
    parseVal (fuel + 1) (c :: rest)
      = (parseNatPart (c :: rest)).map (fun p => (Json.num (p.1 : Int), p.2)) := by
  obtain ⟨h1, h2, h3, h4, h5, h6, h7, _⟩ := digit_not_special h
  simp only [parseVal]
  rw [if_neg h1, if_neg h2, if_neg h3, if_neg h4, if_neg h5, if_neg h6, if_neg h7, if_pos h]

theorem parseVal_neg {rest : List Char} {fuel : Nat} :
    parseVal (fuel + 1) ('-' :: rest)
      = (parseNatPart rest).map (fun p => (Json.num (-(p.1 : Int)), p.2)) := rfl

theorem jsonFromStr_numFormat (i : Int) : jsonFromStr (numFormat i) = some (.num i) := by
  by_cases hneg : i < 0
  · -- negative: "-" ++ natRepr i.natAbs
    have hn : i.natAbs ≠ 0 := by omega
    have hfmt : numFormat i = "-" ++ natRepr i.natAbs := by simp [numFormat, hneg]
    have hdata : (numFormat i).data = '-' :: (natRepr i.natAbs).data := by
      rw [hfmt]; cases natRepr i.natAbs; rfl
    obtain ⟨c, rest, heq, hdig, hne0, hrest⟩ := digitsChars_shape hn
    have hchars : (natRepr i.natAbs).data = c :: rest := by rw [natRepr_data hn, heq]
    have hpn : parseNatPart (c :: rest) = some (i.natAbs, []) := by
      rw [← heq]; exact parseNatPart_digits hn
    simp only [jsonFromStr, hdata, hchars]
    rw [skipWs_of_not_ws (by decide)]
    simp only [List.length_cons]
    rw [show rest.length + 1 + 1 + 1 = (rest.length + 1 + 1) + 1 from rfl, parseVal_neg, hpn]
    have h2 : -(↑i.natAbs : Int) = i := by omega
    simp only [Option.map_some']
    rw [show skipWs [] = [] from rfl, if_pos rfl, h2]
  · by_cases hz : i = 0
    · subst hz; rfl
    · have hn : i.natAbs ≠ 0 := by omega
      have hfmt : numFormat i = natRepr i.natAbs := by simp [numFormat, hneg]
      obtain ⟨c, rest, heq, hdig, hne0, hrest⟩ := digitsChars_shape hn
      have hchars : (numFormat i).data = c :: rest := by rw [hfmt, natRepr_data hn, heq]
      have hpn : parseNatPart (c :: rest) = some (i.natAbs, []) := by
        rw [← heq]; exact parseNatPart_digits hn
      have hws : isWsChar c = false := (digit_not_special hdig).2.2.2.2.2.2.2
      simp only [jsonFromStr, hchars]
      rw [skipWs_of_not_ws hws]
      simp only [List.length_cons]
      rw [parseVal_digit hdig, hpn]
      have h2 : (↑i.natAbs : Int) = i := by omega
      simp only [Option.map_some']
      rw [show skipWs [] = [] from rfl, if_pos rfl, h2]

theorem containsKey_append {k : String} :
    ∀ a b : List (String × α), containsKey k (a ++ b) = (containsKey k a || containsKey k b) := by
  intro a b
  induction a with
  | nil => simp [containsKey]
  | cons kv rest ih =>
    obtain ⟨k', v'⟩ := kv
    simp [containsKey, ih, Bool.or_assoc]

theorem insertAList_append {m : List (String × α)} {k : String}
    (h : containsKey k m = false) (v : α) : insertAList m k v = m ++ [(k, v)] := by
  induction m with
  | nil => rfl
  | cons kv rest ih =>
    obtain ⟨k', v'⟩ := kv
    simp only [containsKey, Bool.or_eq_false_iff] at h
    simp [insertAList, h.1, ih h.2]

theorem foldl_insert_append :
    ∀ (l acc : List (String × α)), noDupKeys l = true →
      (∀ k, containsKey k l = true → containsKey k acc = false) →
      l.foldl (fun acc kv => insertAList acc kv.1 kv.2) acc = acc ++ l := by
  intro l
  induction l with
  | nil => intro acc _ _; simp
  | cons kv rest ih =>
    intro acc hnd hdisj
    obtain ⟨k0, v0⟩ := kv
    simp only [noDupKeys, Bool.and_eq_true, Bool.not_eq_true'] at hnd
    have hacc : containsKey k0 acc = false := hdisj k0 (by simp [containsKey])
    rw [List.foldl_cons]
    show List.foldl _ (insertAList acc k0 v0) rest = _
    rw [insertAList_append hacc v0, ih (acc ++ [(k0, v0)]) hnd.2 ?_]
    · simp
    · intro k hk
      have h1 : containsKey k acc = false := by
        refine hdisj k ?_
        simp [containsKey, hk]
      have h2 : (k0 == k) = false := by
        by_cases hkk : k0 = k
        · subst hkk; rw [hnd.1] at hk; exact absurd hk (by simp)
        · simp [hkk]
      simp [containsKey_append, containsKey, h1, h2]

theorem mapFromIter_self {l : List (String × α)} (h : noDupKeys l = true) :
    mapFromIter l = l := by
  have := foldl_insert_append l [] h (fun k _ => rfl)
  simpa [mapFromIter] using this

theorem alookup_insert (m : List (String × α)) (k k' : String) (v : α) :
    alookup k (insertAList m k' v) = if k' == k then some v else alookup k m := by
  induction m with
  | nil => rfl
  | cons kv rest ih =>
    obtain ⟨k'', v''⟩ := kv
    by_cases h1 : k'' = k'
    · subst h1
      have hb : (k'' == k'') = true := by simp
      simp only [insertAList, hb, if_true]
      by_cases h2 : k'' = k <;> simp [alookup, h2]
    · have : (k'' == k') = false := by simp [h1]
      simp only [insertAList, this, Bool.false_eq_true, if_false]
      by_cases h2 : k'' = k
      · subst h2
        have hne : (k' == k'') = false := by
          simp only [beq_eq_false_iff_ne, ne_eq]
          intro h; exact h1 h.symm
        simp [alookup, hne]
      · simp [alookup, h2, ih]

theorem mem_insertAList {kv : String × α} :
    ∀ {m : List (String × α)} {k : String} {v : α},
      kv ∈ insertAList m k v → kv = (k, v) ∨ kv ∈ m := by
  intro m
  induction m with
  | nil => intro k v h; simp [insertAList] at h; exact Or.inl h
  | cons kv' rest ih =>
    intro k v h
    obtain ⟨k', v'⟩ := kv'
    by_cases hk : k' == k
    · simp only [insertAList, hk, if_true] at h
      rcases List.mem_cons.mp h with h | h
      · exact Or.inl h
      · exact Or.inr (List.mem_cons_of_mem _ h)
    · simp only [insertAList, hk, Bool.false_eq_true, if_false] at h
      rcases List.mem_cons.mp h with h | h
      · exact Or.inr (h ▸ List.mem_cons_self _ _)
      · rcases ih h with h | h
        · exact Or.inl h
        · exact Or.inr (List.mem_cons_of_mem _ h)

theorem mem_foldl_insert {kv : String × α} :
    ∀ {l acc : List (String × α)},
      kv ∈ l.foldl (fun acc kv' => insertAList acc kv'.1 kv'.2) acc → kv ∈ acc ∨ kv ∈ l := by
  intro l
  induction l with
  | nil => intro acc h; exact Or.inl h
  | cons kv' rest ih =>
    intro acc h
    rw [List.foldl_cons] at h
    rcases ih h with h | h
    · rcases mem_insertAList h with h | h
      · subst h; exact Or.inr (List.mem_cons_self _ _)
      · exact Or.inl h
    · exact Or.inr (List.mem_cons_of_mem _ h)

theorem mem_mapFromIter {kv : String × α} {l : List (String × α)}
    (h : kv ∈ mapFromIter l) : kv ∈ l := by
  rcases mem_foldl_insert h with h | h
  · simp at h
  · exact h

theorem wfList_mem {xs : List Json} (h : wfList xs = true) : ∀ x ∈ xs, wfJson x = true := by
  induction xs with
  | nil => intro x hx; simp at hx
  | cons y ys ih =>
    simp only [wfList, Bool.and_eq_true] at h
    intro x hx
    rcases List.mem_cons.mp hx with h' | h'
    · exact h' ▸ h.1
    · exact ih h.2 x h'

theorem wfEntries_mem {kvs : List (String × Json)} (h : wfEntries kvs = true) :
    ∀ kv ∈ kvs, wfJson kv.2 = true := by
  induction kvs with
  | nil => intro kv hkv; simp at hkv
  | cons e es ih =>
    obtain ⟨k, v⟩ := e
    simp only [wfEntries, Bool.and_eq_true] at h
    intro kv hkv
    rcases List.mem_cons.mp hkv with h' | h'
    · exact h' ▸ h.1
    · exact ih h.2 kv h'

theorem noNulList_mem {xs : List Json} (h : noNulList xs = true) :
    ∀ x ∈ xs, noNulJson x = true := by
  induction xs with
  | nil => intro x hx; simp at hx
  | cons y ys ih =>
    simp only [noNulList, Bool.and_eq_true] at h
    intro x hx
    rcases List.mem_cons.mp hx with h' | h'
    · exact h' ▸ h.1
    · exact ih h.2 x h'

theorem noNulEntries_mem {kvs : List (String × Json)} (h : noNulEntries kvs = true) :
    ∀ kv ∈ kvs, noNulJson kv.2 = true := by
  induction kvs with
  | nil => intro kv hkv; simp at hkv
  | cons e es ih =>
    obtain ⟨k, v⟩ := e
    simp only [noNulEntries, Bool.and_eq_true] at h
    intro kv hkv
    rcases List.mem_cons.mp hkv with h' | h'
    · exact h' ▸ h.1
    · exact ih h.2 kv h'

theorem containsKey_encodeEntries {k : String} :
    ∀ kvs : List (String × Json), containsKey k (encodeEntries kvs) = containsKey k kvs := by
  intro kvs
  induction kvs with
  | nil => rfl
  | cons e es ih =>
    obtain ⟨k', v⟩ := e
    simp [encodeEntries, containsKey, ih]

theorem noDupKeys_encodeEntries :
    ∀ kvs : List (String × Json), noDupKeys (encodeEntries kvs) = noDupKeys kvs := by
  intro kvs
  induction kvs with
  | nil => rfl
  | cons e es ih =>
    obtain ⟨k, v⟩ := e
    simp [encodeEntries, noDupKeys, ih, containsKey_encodeEntries]

theorem mem_encodeList {x : AttributeValue} :
    ∀ {xs : List Json}, x ∈ encodeList xs → ∃ x0 ∈ xs, x = json_to_attribute_value x0 := by
  intro xs
  induction xs with
  | nil => intro h; simp [encodeList] at h
  | cons y ys ih =>
    intro h
    simp only [encodeList] at h
    rcases List.mem_cons.mp h with h' | h'
    · exact ⟨y, List.mem_cons_self _ _, h'⟩
    · obtain ⟨x0, hx0, he⟩ := ih h'
      exact ⟨x0, List.mem_cons_of_mem _ hx0, he⟩

theorem mem_encodeEntries {kv : String × AttributeValue} :
    ∀ {kvs : List (String × Json)}, kv ∈ encodeEntries kvs →
      ∃ kv0 ∈ kvs, kv = (kv0.1, json_to_attribute_value kv0.2) := by
  intro kvs
  induction kvs with
  | nil => intro h; simp [encodeEntries] at h
  | cons e es ih =>
    intro h
    obtain ⟨k, v⟩ := e
    simp only [encodeEntries] at h
    rcases List.mem_cons.mp h with h' | h'
    · exact ⟨(k, v), List.mem_cons_self _ _, h'⟩
    · obtain ⟨kv0, hkv0, he⟩ := ih h'
      exact ⟨kv0, List.mem_cons_of_mem _ hkv0, he⟩

theorem decodeList_encodeList {xs : List Json}
    (h : ∀ x ∈ xs, attribute_value_to_json (json_to_attribute_value x) = some x) :
    decodeList (encodeList xs) = some xs := by
  induction xs with
  | nil => rfl
  | cons y ys ih =>
    have hy := h y (List.mem_cons_self _ _)
    have hys := ih (fun x hx => h x (List.mem_cons_of_mem _ hx))
    simp only [encodeList, decodeList, hy, hys]

theorem decodeEntries_encodeEntries {kvs : List (String × Json)}
    (h : ∀ kv ∈ kvs, attribute_value_to_json (json_to_attribute_value kv.2) = some kv.2) :
    decodeEntries (encodeEntries kvs) = some kvs := by
  induction kvs with
  | nil => rfl
  | cons e es ih =>
    obtain ⟨k, v⟩ := e
    have hv := h (k, v) (List.mem_cons_self _ _)
    have hes := ih (fun kv hkv => h kv (List.mem_cons_of_mem _ hkv))
    simp only [encodeEntries, decodeEntries, hv, hes]

theorem oneSlotList_of {xs : List AttributeValue} (h : ∀ x ∈ xs, oneSlot x = true) :
    oneSlotList xs = true := by
  induction xs with
  | nil => rfl
  | cons y ys ih =>
    simp only [oneSlotList, Bool.and_eq_true]
    exact ⟨h y (List.mem_cons_self _ _), ih (fun x hx => h x (List.mem_cons_of_mem _ hx))⟩

theorem oneSlotEntries_of {kvs : List (String × AttributeValue)}
    (h : ∀ kv ∈ kvs, oneSlot kv.2 = true) : oneSlotEntries kvs = true := by
  induction kvs with
  | nil => rfl
  | cons e es ih =>
    obtain ⟨k, v⟩ := e
    simp only [oneSlotEntries, Bool.and_eq_true]
    exact ⟨h (k, v) (List.mem_cons_self _ _), ih (fun kv hkv => h kv (List.mem_cons_of_mem _ hkv))⟩

theorem fields_foldl_lookup :
    ∀ (pairs : List (String × Json)) (acc : List (String × AttributeValue)) (k : String),
      alookup k (pairs.foldl (fun m kv => insertAList m kv.1 (json_to_attribute_value kv.2)) acc)
        = match lastAssoc k pairs with
          | some v => some (json_to_attribute_value v)
          | none => alookup k acc := by
  intro pairs
  induction pairs with
  | nil => intro acc k; rfl
  | cons e ps ih =>
    intro acc k
    obtain ⟨k0, v0⟩ := e
    rw [List.foldl_cons]
    have := ih (insertAList acc k0 (json_to_attribute_value v0)) k
    rw [this]
    show _ = (match lastAssoc k ((k0, v0) :: ps) with
      | some v => some (json_to_attribute_value v)
      | none => alookup k acc)
    simp only [lastAssoc]
    cases h : lastAssoc k ps with
    | some w => rfl
    | none =>
      rw [alookup_insert]
      cases hk : (k0 == k) <;> simp


/-- Claim C1: for every Generic Value `v` (well-formed: object keys unique)
that contains no string equal to the single NUL character, decoding the
encoding of `v` yields exactly `v` (numbers are modelled as integers, for
which the numeric-text conversion round-trips exactly). -/
theorem json_roundtrip : ∀ v, wfJson v = true → noNulJson v = true →
    attribute_value_to_json (json_to_attribute_value v) = some v := by
  refine Json.induct _ ?_ ?_ ?_ ?_ ?_ ?_
  · intro _ _; rfl
  · intro b _ _; rfl
  · intro i _ _
    show jsonFromStr (numFormat i) = some (.num i)
    exact jsonFromStr_numFormat i
  · intro t _ hnn
    simp only [noNulJson, Bool.not_eq_true', beq_eq_false_iff_ne, ne_eq] at hnn
    by_cases ht : t = ""
    · subst ht; rfl
    · simp only [json_to_attribute_value, if_neg ht]
      show (if t = "\x00" then some (Json.str "") else some (Json.str t)) = some (.str t)
      rw [if_neg hnn]
  · intro xs ih hw hnn
    simp only [wfJson] at hw
    simp only [noNulJson] at hnn
    have hpt : ∀ x ∈ xs, attribute_value_to_json (json_to_attribute_value x) = some x :=
      fun x hx => ih x hx (wfList_mem hw x hx) (noNulList_mem hnn x hx)
    show (decodeList (encodeList xs)).map Json.arr = some (.arr xs)
    rw [decodeList_encodeList hpt]
    rfl
  · intro kvs ih hw hnn
    simp only [wfJson, Bool.and_eq_true] at hw
    simp only [noNulJson] at hnn
    have hpt : ∀ kv ∈ kvs, attribute_value_to_json (json_to_attribute_value kv.2) = some kv.2 :=
      fun kv hkv => ih kv hkv (wfEntries_mem hw.2 kv hkv) (noNulEntries_mem hnn kv hkv)
    show (decodeEntries (mapFromIter (encodeEntries kvs))).map (fun es => Json.obj (mapFromIter es))
        = some (.obj kvs)
    have hnd : noDupKeys (encodeEntries kvs) = true := by
      rw [noDupKeys_encodeEntries]; exact hw.1
    rw [mapFromIter_self hnd, decodeEntries_encodeEntries hpt]
    simp only [Option.map_some']
    rw [mapFromIter_self hw.1]

/-- Witness for C1 at a concrete field-map-like object. -/
theorem json_roundtrip_witness :
    wfJson (.obj [("id", .str "test"), ("counter", .num 0), ("xs", .arr [.bool true, .null, .str ""])]) = true
    ∧ noNulJson (.obj [("id", .str "test"), ("counter", .num 0), ("xs", .arr [.bool true, .null, .str ""])]) = true
    ∧ attribute_value_to_json (json_to_attribute_value
        (.obj [("id", .str "test"), ("counter", .num 0), ("xs", .arr [.bool true, .null, .str ""])]))
      = some (.obj [("id", .str "test"), ("counter", .num 0), ("xs", .arr [.bool true, .null, .str ""])]) :=
  ⟨by decide, by decide, json_roundtrip _ (by decide) (by decide)⟩

/-- Claim C2: encoding `String("")` yields an Attribute Value whose only
populated slot is `s` holding the one-character NUL string; decoding that
Attribute Value yields `String("")`; every non-empty string other than the
NUL string encodes and decodes verbatim. -/
theorem empty_string_sentinel :
    json_to_attribute_value (.str "")
        = ⟨none, none, none, none, none, none, none, none, some "\x00", none⟩
    ∧ attribute_value_to_json ⟨none, none, none, none, none, none, none, none, some "\x00", none⟩
        = some (.str "")
    ∧ ∀ t : String, t ≠ "" → t ≠ "\x00" →
        json_to_attribute_value (.str t)
            = ⟨none, none, none, none, none, none, none, none, some t, none⟩
        ∧ attribute_value_to_json ⟨none, none, none, none, none, none, none, none, some t, none⟩
            = some (.str t) := by
  refine ⟨rfl, rfl, fun t h1 h2 => ⟨?_, ?_⟩⟩
  · simp only [json_to_attribute_value, if_neg h1]
  · show (if t = "\x00" then some (Json.str "") else some (Json.str t)) = some (.str t)
    rw [if_neg h2]

/-- Witness for C2 at the string "abc". -/
theorem empty_string_sentinel_witness :
    ("abc" : String) ≠ "" ∧ ("abc" : String) ≠ "\x00"
    ∧ attribute_value_to_json ⟨none, none, none, none, none, none, none, none, some "abc", none⟩
        = some (.str "abc") :=
  ⟨by decide, by decide, (empty_string_sentinel.2.2 "abc" (by decide) (by decide)).2⟩

/-- Claim C3 (corrected order): the decoder checks the slots in the fixed
order `b`, `bool`, `bs`, `l`, `m`, `n`, `ns`, `s`, `null`, `ss` — the String
slot BEFORE the Null marker — using the first populated one; an Attribute
Value with no populated slot fails.  (The claim's stated order, Null before
String, is refuted by the counterexample below.) -/
theorem decode_priority (av : AttributeValue) :
    (∀ bytes, av.b = some bytes →
      attribute_value_to_json av = (utf8Decode bytes).map Json.str)
    ∧ (av.b = none → ∀ bv, av.bool = some bv →
      attribute_value_to_json av = some (.bool bv))
    ∧ (av.b = none → av.bool = none → ∀ xss, av.bs = some xss →
      attribute_value_to_json av = (xss.mapM utf8Decode).map (fun ts => .arr (ts.map .str)))
    ∧ (av.b = none → av.bool = none → av.bs = none → ∀ xs, av.l = some xs →
      attribute_value_to_json av = (decodeList xs).map .arr)
    ∧ (av.b = none → av.bool = none → av.bs = none → av.l = none → ∀ kvs, av.m = some kvs →
      attribute_value_to_json av = (decodeEntries kvs).map (fun es => .obj (mapFromIter es)))
    ∧ (av.b = none → av.bool = none → av.bs = none → av.l = none → av.m = none →
      ∀ t, av.n = some t → attribute_value_to_json av = jsonFromStr t)
    ∧ (av.b = none → av.bool = none → av.bs = none → av.l = none → av.m = none →
      av.n = none → ∀ xs, av.ns = some xs →
      attribute_value_to_json av = (xs.mapM jsonFromStr).map .arr)
    ∧ (av.b = none → av.bool = none → av.bs = none → av.l = none → av.m = none →
      av.n = none → av.ns = none → ∀ t, av.s = some t →
      attribute_value_to_json av = if t = "\x00" then some (.str "") else some (.str t))
    ∧ (av.b = none → av.bool = none → av.bs = none → av.l = none → av.m = none →
      av.n = none → av.ns = none → av.s = none → ∀ bv, av.null = some bv →
      attribute_value_to_json av = some .null)
    ∧ (av.b = none → av.bool = none → av.bs = none → av.l = none → av.m = none →
      av.n = none → av.ns = none → av.s = none → av.null = none → ∀ xs, av.ss = some xs →
      attribute_value_to_json av = none)
    ∧ (av.b = none → av.bool = none → av.bs = none → av.l = none → av.m = none →
      av.n = none → av.ns = none → av.s = none → av.null = none → av.ss = none →
      attribute_value_to_json av = none) := by
  obtain ⟨b, bo, bs, l, m, n, ns, nu, s, ss⟩ := av
  simp only [AttributeValue.b, AttributeValue.bool, AttributeValue.bs, AttributeValue.l,
    AttributeValue.m, AttributeValue.n, AttributeValue.ns, AttributeValue.null,
    AttributeValue.s, AttributeValue.ss]
  refine ⟨?_, ?_, ?_, ?_, ?_, ?_, ?_, ?_, ?_, ?_, ?_⟩
  · rintro bytes rfl; rfl
  · rintro rfl bv rfl; rfl
  · rintro rfl rfl xss rfl; rfl
  · rintro rfl rfl rfl xs rfl; rfl
  · rintro rfl rfl rfl rfl kvs rfl; rfl
  · rintro rfl rfl rfl rfl rfl t rfl; rfl
  · rintro rfl rfl rfl rfl rfl rfl xs rfl; rfl
  · rintro rfl rfl rfl rfl rfl rfl rfl t rfl; rfl
  · rintro rfl rfl rfl rfl rfl rfl rfl rfl bv rfl; rfl
  · rintro rfl rfl rfl rfl rfl rfl rfl rfl rfl xs rfl; rfl
  · rintro rfl rfl rfl rfl rfl rfl rfl rfl rfl rfl; rfl

/-- Witness for C3: the Null-marker conjunct applied at a concrete
Attribute Value whose only populated slot is the Null marker. -/
theorem decode_priority_witness :
    attribute_value_to_json ⟨none, none, none, none, none, none, none, some true, none, none⟩
      = some .null :=
  (decode_priority ⟨none, none, none, none, none, none, none, some true, none, none⟩
    ).2.2.2.2.2.2.2.2.1 rfl rfl rfl rfl rfl rfl rfl rfl true rfl

/-- Counterexample for C3 as stated: on an Attribute Value with BOTH the
Null marker and the String slot populated, the decoder uses the String
slot, not the Null marker. -/
theorem decode_null_vs_string_counterexample :
    attribute_value_to_json ⟨none, none, none, none, none, none, none, some true, some "x", none⟩
      = some (.str "x")
    ∧ attribute_value_to_json ⟨none, none, none, none, none, none, none, some true, some "x", none⟩
      ≠ some .null :=
  ⟨rfl, fun h => Json.noConfusion (Option.some.inj h)⟩

/-- Claim C4 (code bug): decoding an Attribute Value whose only populated
slot is StringSet panics (`none`) instead of producing the Array of its
members, because the source's `ss` branch reads the absent `ns` slot
(src/src/lib.rs:322). -/
theorem stringset_decode_panics (xs : List String) :
    attribute_value_to_json ⟨none, none, none, none, none, none, none, none, none, some xs⟩
      = none := rfl

/-- Claim C5 (corrected): the Number slot's text is parsed as a complete
JSON document, so a valid numeric literal yields `Number(parsed)`, but any
other valid JSON text also decodes successfully (to a non-Number value);
only text that is not valid JSON fails. -/
theorem number_slot_parses_as_json :
    (∀ t : String,
      attribute_value_to_json ⟨none, none, none, none, none, some t, none, none, none, none⟩
        = jsonFromStr t)
    ∧ (∀ i : Int,
      attribute_value_to_json ⟨none, none, none, none, none, some (numFormat i), none, none, none, none⟩
        = some (.num i)) :=
  ⟨fun _ => rfl, fun i => jsonFromStr_numFormat i⟩

/-- Counterexample for C5 as stated: the text `true` is not a numeric
literal, yet decoding the Attribute Value whose Number slot holds it
succeeds, yielding `Bool(true)` (neither a Number nor a failure). -/
theorem number_slot_nonnumeric_counterexample :
    attribute_value_to_json ⟨none, none, none, none, none, some "true", none, none, none, none⟩
      = some (.bool true) := rfl

/-- Claim C6: the field-map encoding (`json_to_attribute_value_hashmap`,
reached from `to_fields`) fails — the source panics on the absent `m` slot,
modelled as `none` — on every Generic Value that is not an Object, rather
than returning a mapping. -/
theorem to_fields_non_object :
    ∀ v : Json, Json.isObj v = false → json_to_attribute_value_hashmap v = none := by
  intro v h
  cases v with
  | null => rfl
  | bool b => rfl
  | num i => rfl
  | arr xs => rfl
  | obj kvs => simp [Json.isObj] at h
  | str t =>
    by_cases ht : t = ""
    · subst ht; rfl
    · simp only [json_to_attribute_value_hashmap, json_to_attribute_value, if_neg ht]
      rfl

/-- Witness for C6 at the bare Number 5. -/
theorem to_fields_non_object_witness :
    Json.isObj (.num 5) = false ∧ json_to_attribute_value_hashmap (.num 5) = none :=
  ⟨rfl, to_fields_non_object (.num 5) rfl⟩

/-- Claim C7: the encoder is total — every Generic Value is mapped to
exactly one Attribute Value, with no failure path (its codomain is
`AttributeValue`, not an error-carrying type, because the source has no
panic or error path). -/
theorem json_to_attribute_value_total (v : Json) : ∃! a, json_to_attribute_value v = a :=
  ⟨json_to_attribute_value v, rfl, fun _ hy => hy.symm⟩

/-- Claim C8: every Attribute Value the encoder produces has exactly one
populated slot, recursively through the produced List and Map slots. -/
theorem encoder_one_slot : ∀ v : Json, oneSlot (json_to_attribute_value v) = true := by
  refine Json.induct _ ?_ ?_ ?_ ?_ ?_ ?_
  · rfl
  · intro b; rfl
  · intro i; rfl
  · intro t
    by_cases ht : t = ""
    · subst ht; rfl
    · simp only [json_to_attribute_value, if_neg ht]; rfl
  · intro xs ih
    have hl : oneSlotList (encodeList xs) = true := by
      refine oneSlotList_of (fun x hx => ?_)
      obtain ⟨x0, hx0, rfl⟩ := mem_encodeList hx
      exact ih x0 hx0
    simp only [json_to_attribute_value, oneSlot, optCount, hl]
    rfl
  · intro kvs ih
    have hm : oneSlotEntries (mapFromIter (encodeEntries kvs)) = true := by
      refine oneSlotEntries_of (fun kv hkv => ?_)
      have hmem : kv ∈ encodeEntries kvs := mem_mapFromIter hkv
      obtain ⟨kv0, hkv0, heq⟩ := mem_encodeEntries hmem
      rw [heq]
      exact ih kv0 hkv0
    simp only [json_to_attribute_value, oneSlot, optCount, hm]
    rfl

/-- Claim C9: the `fields!` builder maps each key to the encoding of the
value of its LAST occurrence in the pair list (last-write-wins), and keys
that never occur are absent. -/
theorem fields_last_write_wins :
    ∀ (pairs : List (String × Json)) (k : String),
      alookup k (fieldsBuilder pairs) = (lastAssoc k pairs).map json_to_attribute_value := by
  intro pairs k
  simp only [fieldsBuilder]
  rw [fields_foldl_lookup pairs [] k]
  cases lastAssoc k pairs <;> rfl

/-- Claim C10: the encoder never populates the Binary, BinarySet, NumberSet
or StringSet slots; hence decoding a Binary-only Attribute Value holding
valid UTF-8 and re-encoding the result produces a String-slot Attribute
Value different from the original, so decode-then-encode is not the
identity on Attribute Values. -/
theorem encoder_no_set_slots :
    (∀ v : Json, (json_to_attribute_value v).b = none
      ∧ (json_to_attribute_value v).bs = none
      ∧ (json_to_attribute_value v).ns = none
      ∧ (json_to_attribute_value v).ss = none)
    ∧ (∀ (bytes : List Nat) (t : String), utf8Decode bytes = some t →
        ∃ av2 : AttributeValue,
          (attribute_value_to_json
              ⟨some bytes, none, none, none, none, none, none, none, none, none⟩).map
            json_to_attribute_value = some av2
          ∧ av2.s.isSome = true ∧ av2.b = none
          ∧ av2 ≠ ⟨some bytes, none, none, none, none, none, none, none, none, none⟩) := by
  constructor
  · intro v
    cases v with
    | null => exact ⟨rfl, rfl, rfl, rfl⟩
    | bool b => exact ⟨rfl, rfl, rfl, rfl⟩
    | num i => exact ⟨rfl, rfl, rfl, rfl⟩
    | arr xs => exact ⟨rfl, rfl, rfl, rfl⟩
    | obj kvs => exact ⟨rfl, rfl, rfl, rfl⟩
    | str t =>
      by_cases ht : t = "" <;>
        simp [json_to_attribute_value, ht, AttributeValue.b, AttributeValue.bs,
          AttributeValue.ns, AttributeValue.ss]
  · intro bytes t h
    refine ⟨json_to_attribute_value (.str t), ?_, ?_, ?_, ?_⟩
    · show ((utf8Decode bytes).map Json.str).map json_to_attribute_value
          = some (json_to_attribute_value (.str t))
      rw [h]
      rfl
    · by_cases ht : t = "" <;> simp [json_to_attribute_value, ht, AttributeValue.s]
    · by_cases ht : t = "" <;> simp [json_to_attribute_value, ht, AttributeValue.b]
    · intro heq
      have hb : (json_to_attribute_value (.str t)).b = none := by
        by_cases ht : t = "" <;> simp [json_to_attribute_value, ht, AttributeValue.b]
      rw [heq] at hb
      exact Option.noConfusion hb

/-- Witness for C10 at the UTF-8 bytes of "hi". -/
theorem encoder_no_set_slots_witness :
    utf8Decode [104, 105] = some "hi"
    ∧ ∃ av2 : AttributeValue,
        (attribute_value_to_json
            ⟨some [104, 105], none, none, none, none, none, none, none, none, none⟩).map
          json_to_attribute_value = some av2
        ∧ av2.s.isSome = true ∧ av2.b = none
        ∧ av2 ≠ ⟨some [104, 105], none, none, none, none, none, none, none, none, none⟩ :=
  ⟨rfl, encoder_no_set_slots.2 [104, 105] "hi" rfl⟩

end DDB
